import Mathlib

/-!
Shallow embedding of the ts-interface-checker runtime validation engine:
the type-descriptor model and checker compilation of src/lib/types.ts,
the validation-context protocol of src/lib/util.ts (NoopContext and
DetailContext), and the Checker facade of src/dist/index.js.

Machine-level conventions: JavaScript numbers are modeled as Int (no claim
depends on float behavior); host-native object kinds (Date, RegExp, Buffer,
typed arrays) have no inhabitants in the modeled value universe, so their
tag-sniffing validators are constantly false here.  Recursion through named
type references is eager in the source (TName.getChecker compiles its target
immediately), so every recursive definition takes a fuel parameter that is
consumed at each step; `none` marks fuel exhaustion.
-/

/-- A JavaScript runtime value, restricted to the kinds the library inspects. -/
inductive Value where
  | vNum (n : Int)
  | vStr (s : String)
  | vBool (b : Bool)
  | vNull
  | vUndefined
  | vArr (items : List Value)
  | vObj (fields : List (String × Value))
  | vFunc
deriving Repr

mutual
/-- Model of JavaScript `===` as used by the checkers.  The source compares
with `===` only literal values, enum member values and `undefined`, which are
scalars, and for scalars `===` is structural equality. -/
def Value.beq : Value → Value → Bool
  | .vNum a, .vNum b => a == b
  | .vStr a, .vStr b => a == b
  | .vBool a, .vBool b => a == b
  | .vNull, .vNull => true
  | .vUndefined, .vUndefined => true
  | .vArr a, .vArr b => Value.beqList a b
  | .vObj a, .vObj b => Value.beqFields a b
  | .vFunc, .vFunc => true
  | _, _ => false
def Value.beqList : List Value → List Value → Bool
  | [], [] => true
  | x :: xs, y :: ys => Value.beq x y && Value.beqList xs ys
  | _, _ => false
def Value.beqFields : List (String × Value) → List (String × Value) → Bool
  | [], [] => true
  | x :: xs, y :: ys => x.1 == y.1 && Value.beq x.2 y.2 && Value.beqFields xs ys
  | _, _ => false
end

instance : BEq Value := ⟨Value.beq⟩

/-- JavaScript `typeof`. -/
def typeofStr : Value → String
  | .vNum _ => "number"
  | .vStr _ => "string"
  | .vBool _ => "boolean"
  | .vNull => "object"
  | .vUndefined => "undefined"
  | .vArr _ => "object"
  | .vObj _ => "object"
  | .vFunc => "function"

/-- JavaScript truthiness, for the `object` basic-type validator. -/
def truthy : Value → Bool
  | .vNum n => n != 0
  | .vStr s => s != ""
  | .vBool b => b
  | .vNull => false
  | .vUndefined => false
  | _ => true

/-- Property access `value[name]` as used by the interface checker (only ever
applied after the `typeof value === "object"` guard, i.e. to objects and
arrays); absent properties read as `undefined`. -/
def getProp : Value → String → Value
  | .vObj fields, k => (((fields.find? (fun f => f.1 == k)).map (fun f => f.2)).getD .vUndefined)
  | .vArr items, k =>
    if k == "length" then .vNum items.length
    else ((((items.enum).find? (fun p => toString p.1 == k)).map (fun p => p.2)).getD .vUndefined)
  | _, _ => .vUndefined

/-- Index access `value[i]`, used by the tuple checker; out-of-range reads
give `undefined`. -/
def itemAt (items : List Value) (i : Nat) : Value :=
  items.getD i .vUndefined

/-- `for (const prop in value)`: own enumerable property names in insertion
order (array indices for arrays). -/
def enumKeys : Value → List String
  | .vObj fields => fields.map (fun f => f.1)
  | .vArr items => (List.range items.length).map toString
  | _ => []

/-- JSON.stringify of a scalar, used by TLiteral for its name and failure
message.  Literal descriptors only ever carry scalars (string escaping is not
modeled); the non-scalar cases are unused. -/
def jsonStr : Value → String
  | .vNum n => toString n
  | .vStr s => "\"" ++ s ++ "\""
  | .vBool true => "true"
  | .vBool false => "false"
  | .vNull => "null"
  | .vUndefined => "undefined"
  | _ => ""

mutual
/-- Type descriptor nodes (src/lib/types.ts).  `tBasic` carries the validator
predicate and failure message of class BasicType; `tFunc`'s parameter list and
result are not compiled by its getChecker, so they are not carried here. -/
inductive TType where
  | tName (name : String)
  | tLit (value : Value)
  | tArray (ttype : TType)
  | tTuple (ttypes : List TType)
  | tUnion (ttypes : List TType)
  | tIntersection (ttypes : List TType)
  | tEnumType (members : List (String × Value))
  | tEnumLit (enumName : String) (prop : String)
  | tIface (bases : List String) (props : List TProp) (indexType : Option TType)
  | tOpt (ttype : TType)
  | tFunc
  | tBasic (validator : Value → Bool) (message : String)
/-- A named, possibly optional interface property (class TProp). -/
inductive TProp where
  | mk (name : String) (ttype : TType) (isOpt : Bool)
end

def TProp.name : TProp → String
  | .mk n _ _ => n

def TProp.ttype : TProp → TType
  | .mk _ t _ => t

def TProp.isOpt : TProp → Bool
  | .mk _ _ o => o

/-- A suite of named types (interface ITypeSuite), as the name-resolution map. -/
abbrev Suite : Type := String → Option TType

/-- TName.getChecker returns the target's checker unwrapped exactly when the
target is a BasicType or another TName. -/
def basicOrName : TType → Bool
  | .tBasic _ _ => true
  | .tName _ => true
  | _ => false

/-- The member names contributing to TUnion's failure message. -/
def unionMemberName : TType → Option String
  | .tName n => some n
  | .tLit v => some (jsonStr v)
  | _ => none

/-- TUnion's `_failMsg`, computed in its constructor. -/
def unionFailMsg (ttypes : List TType) : String :=
  let names := ttypes.filterMap unionMemberName
  let otherTypes := ttypes.length - names.length
  if names.length != 0 then
    let names' := if otherTypes > 0 then names ++ [toString otherTypes ++ " more"] else names
    "is none of " ++ String.intercalate ", " names'
  else
    "is none of " ++ toString otherTypes ++ " types"

/-- Lookup of an enum member by name (`members[prop]` with hasOwnProperty). -/
def lookupMember (ms : List (String × Value)) (p : String) : Option Value :=
  (ms.find? (fun m => m.1 == p)).map (fun m => m.2)

/-- A relative path segment recorded by IContext.fail: a property name or an
array/tuple index (null is modeled by the surrounding Option). -/
inductive PathSeg where
  | str (s : String)
  | idx (n : Nat)
deriving DecidableEq, Repr

/-- DetailContext state (src/lib/util.ts): parallel stacks of path segments
and messages, the running severity score, archived failed forks and the
reusable current fork. -/
inductive DCtx where
  | mk (propNames : List (Option PathSeg)) (messages : List (Option String))
       (score : Int) (failedForks : List DCtx) (currentFork : Option DCtx)

def DCtx.propNames : DCtx → List (Option PathSeg)
  | .mk p _ _ _ _ => p

def DCtx.messages : DCtx → List (Option String)
  | .mk _ m _ _ _ => m

def DCtx.score : DCtx → Int
  | .mk _ _ sc _ _ => sc

def DCtx.failedForks : DCtx → List DCtx
  | .mk _ _ _ fk _ => fk

def DCtx.currentFork : DCtx → Option DCtx
  | .mk _ _ _ _ c => c

/-- A freshly constructed DetailContext. -/
def DCtx.empty : DCtx := .mk [] [] 0 [] none

/-- DetailContext.fail: push the path segment and message, add the score. -/
def DCtx.fail (d : DCtx) (relPath : Option PathSeg) (message : Option String)
    (score : Int) : DCtx :=
  .mk (d.propNames ++ [relPath]) (d.messages ++ [message]) (d.score + score)
    d.failedForks d.currentFork

/-- DetailContext.maxForks: cap on failures recorded at one level. -/
def maxForks : Nat := 3

/-- DetailContext.failed(): anything recorded in this context? -/
def DCtx.failedB (d : DCtx) : Bool :=
  d.propNames.length + d.failedForks.length > 0

/-- DetailContext.fork(): returns the reusable current fork (creating it on
first use) together with the updated parent.  Note: none of the checker
closures in src/lib/types.ts ever calls fork. -/
def DCtx.fork (d : DCtx) : DCtx × DCtx :=
  match d.currentFork with
  | some c => (c, d)
  | none => (DCtx.empty, .mk d.propNames d.messages d.score d.failedForks (some DCtx.empty))

/-- DetailContext.completeFork(), taking the final state of the current fork
(which the source mutates in place through a reference): a failed fork is
archived, and checking should continue while fewer than maxForks failures are
archived. -/
def DCtx.completeFork (d : DCtx) (fork : DCtx) : Bool × DCtx :=
  let d' := if fork.failedB then
      DCtx.mk d.propNames d.messages
        (if d.failedForks.length == 0 then fork.score else d.score)
        (d.failedForks ++ [fork]) none
    else d
  (d'.failedForks.length < maxForks, d')

/-- The best-match selection loop of DetailContext.resolveUnion: starting from
no candidate, each context whose score is `>=` the current best's replaces it
(so the last context among those with the maximal score wins). -/
def resolveBestGo (b : DCtx) : List DCtx → DCtx
  | [] => b
  | c :: cs => resolveBestGo (if c.score >= b.score then c else b) cs

def resolveBest : List DCtx → Option DCtx
  | [] => none
  | c :: cs => some (resolveBestGo c cs)

/-- DetailContext.resolveUnion: pick the best-scoring member context and, when
its score is positive, splice its records into this context. -/
def DCtx.resolveUnion (d : DCtx) (contexts : List DCtx) : DCtx :=
  match resolveBest contexts with
  | none => d
  | some best =>
    if best.score > 0 then
      DCtx.mk (d.propNames ++ best.propNames) (d.messages ++ best.messages)
        d.score (d.failedForks ++ best.failedForks) d.currentFork
    else d

/-- IErrorDetail: structured error records returned by getErrorDetails. -/
inductive ErrDetail where
  | mk (path : String) (message : String) (nested : List ErrDetail)

/-- Rendering of one recorded path segment inside getErrorDetails:
numbers as `[i]`, nonempty names as `.name`, null/empty as nothing. -/
def renderSeg : Option PathSeg → String
  | some (.idx n) => "[" ++ toString n ++ "]"
  | some (.str s) => if s == "" then "" else "." ++ s
  | none => ""

/-- The reverse walk of getErrorDetails over the (propNames, messages) stacks:
accumulates the path across every entry and emits a (path, message) pair at
each entry that carries a message.  The input list is the recorded stack in
reverse order. -/
def collectDetails : String → List (Option PathSeg × Option String) → List (String × String)
  | _, [] => []
  | path, e :: rest =>
    let path' := path ++ renderSeg e.1
    match e.2 with
    | some msg => (path', msg) :: collectDetails path' rest
    | none => collectDetails path' rest

/-- getErrorDetails chains each emitted pair as the single nested child of the
previous one; the fork errors become the nested list of the deepest detail
(or the result itself when no pair was emitted). -/
def buildChain : List (String × String) → List ErrDetail → List ErrDetail
  | [], forkErrors => forkErrors
  | e :: rest, forkErrors => [ErrDetail.mk e.1 e.2 (buildChain rest forkErrors)]

mutual
/-- DetailContext.getErrorDetails.  The source's `path` accumulates a segment
per recorded entry while walking the stacks in reverse, and the failed forks
are rendered from that fully accumulated path. -/
def getErrorDetails : DCtx → String → List ErrDetail
  | .mk ps ms _ forks _, path =>
    buildChain (collectDetails path ((ps.zip ms).reverse))
      (getErrorDetailsList forks (path ++ String.join ((ps.reverse).map renderSeg)))
def getErrorDetailsList : List DCtx → String → List ErrDetail
  | [], _ => []
  | d :: ds, path => getErrorDetails d path ++ getErrorDetailsList ds path
end

/-- The suite of basic built-in types (src/lib/types.ts basicTypes).  Date,
RegExp, Buffer and the typed arrays exist as names but have no inhabitants in
the modeled Value universe, so their validators are constantly false. -/
def basicTypes : Suite := fun n =>
  match n with
  | "any" => some (.tBasic (fun _ => true) "is invalid")
  | "number" => some (.tBasic (fun v => typeofStr v == "number") "is not a number")
  | "object" => some (.tBasic (fun v => typeofStr v == "object" && truthy v) "is not an object")
  | "boolean" => some (.tBasic (fun v => typeofStr v == "boolean") "is not a boolean")
  | "string" => some (.tBasic (fun v => typeofStr v == "string") "is not a string")
  | "symbol" => some (.tBasic (fun _ => false) "is not a symbol")
  | "void" => some (.tBasic (fun v => v == .vNull || v == .vUndefined) "is not void")
  | "undefined" => some (.tBasic (fun v => v == .vUndefined) "is not undefined")
  | "null" => some (.tBasic (fun v => v == .vNull) "is not null")
  | "never" => some (.tBasic (fun _ => false) "is unexpected")
  | "Date" => some (.tBasic (fun _ => false) "is not a Date")
  | "RegExp" => some (.tBasic (fun _ => false) "is not a RegExp")
  | "Buffer" => some (.tBasic (fun _ => false) "is not a Buffer")
  | "Int8Array" => some (.tBasic (fun _ => false) "is not a Int8Array")
  | "Uint8Array" => some (.tBasic (fun _ => false) "is not a Uint8Array")
  | "Uint8ClampedArray" => some (.tBasic (fun _ => false) "is not a Uint8ClampedArray")
  | "Int16Array" => some (.tBasic (fun _ => false) "is not a Int16Array")
  | "Uint16Array" => some (.tBasic (fun _ => false) "is not a Uint16Array")
  | "Int32Array" => some (.tBasic (fun _ => false) "is not a Int32Array")
  | "Uint32Array" => some (.tBasic (fun _ => false) "is not a Uint32Array")
  | "Float32Array" => some (.tBasic (fun _ => false) "is not a Float32Array")
  | "Float64Array" => some (.tBasic (fun _ => false) "is not a Float64Array")
  | "ArrayBuffer" => some (.tBasic (fun _ => false) "is not a ArrayBuffer")
  | _ => none

/-- Short-circuiting conjunction over a list in the fuel (Option) monad:
mirrors the source loops that return false at the first failing element
(and Array.prototype.every, used by TIntersection). -/
def loopN {α : Type} (p : α → Option Bool) : List α → Option Bool
  | [] => some true
  | x :: xs =>
    match p x with
    | none => none
    | some false => some false
    | some true => loopN p xs

/-- Short-circuiting disjunction: mirrors the union member loop, which returns
true at the first succeeding member. -/
def anyN {α : Type} (p : α → Option Bool) : List α → Option Bool
  | [] => some false
  | x :: xs =>
    match p x with
    | none => none
    | some true => some true
    | some false => anyN p xs

/-- Detail-context version of loopN: on element failure, apply `onFail` to the
context (e.g. `ctx.fail(i, null, 1)`) and stop. -/
def loopD {α : Type} (p : α → DCtx → Option (Bool × DCtx)) (onFail : α → DCtx → DCtx) :
    List α → DCtx → Option (Bool × DCtx)
  | [], d => some (true, d)
  | x :: xs, d =>
    match p x d with
    | none => none
    | some (true, d') => loopD p onFail xs d'
    | some (false, d') => some (false, onFail x d')

/-- The union member loop against a DetailUnionResolver: each member is
checked in a fresh DetailContext (`ur.createContext()`), which is accumulated
in the resolver's context list; the first success short-circuits. -/
def unionLoopD {α : Type} (p : α → DCtx → Option (Bool × DCtx)) :
    List α → List DCtx → Option (Bool × List DCtx)
  | [], acc => some (false, acc)
  | x :: xs, acc =>
    match p x DCtx.empty with
    | none => none
    | some (true, d') => some (true, acc ++ [d'])
    | some (false, d') => unionLoopD p xs (acc ++ [d'])

/-- The property names a member contributes to an intersection's shared
allowedProps set at compile time: TIface.getChecker adds its own propSet in
its strict branch (skipped if an index signature is present), and
TName.getChecker passes the set through to its resolved target; no other node
kind touches it. -/
def allowedOf : Nat → Suite → TType → Option (List String)
  | 0, _, _ => none
  | f + 1, s, t =>
    match t with
    | .tName n =>
      match s n with
      | none => none
      | some t' => allowedOf f s t'
    | .tIface _ props idx => some (if idx.isNone then props.map TProp.name else [])
    | _ => some []

/-- The contents of the shared allowedProps set of TIntersection.getChecker
after all members have been compiled (the compiled closures read the set only
at validation time, when it is complete). -/
def collectAllowed (f : Nat) (s : Suite) : List TType → Option (List String)
  | [] => some []
  | t :: ts =>
    match allowedOf f s t, collectAllowed f s ts with
    | some l1, some l2 => some (l1 ++ l2)
    | _, _ => none

/-- Sequencing of compile-time results: the first thrown error wins. -/
def exceptList {α : Type} (p : α → Option (Except String Unit)) :
    List α → Option (Except String Unit)
  | [] => some (.ok ())
  | x :: xs =>
    match p x with
    | none => none
    | some (.error e) => some (.error e)
    | some (.ok _) => exceptList p xs

def exceptSeq : Option (Except String Unit) → Option (Except String Unit) →
    Option (Except String Unit)
  | none, _ => none
  | some (.error e), _ => some (.error e)
  | some (.ok _), r => r

/-- Compile-time behavior of getChecker: `some (.ok ())` when compilation of
the checker closure succeeds, `some (.error m)` when it throws the Error
message m, and `none` when the eager recursion through named references
exceeds the fuel (a compilation that never terminates is `none` for every
fuel).  Mirrors the eager structure of each getChecker in src/lib/types.ts:
TName and TEnumLiteral resolve names immediately, every composite compiles
all of its children immediately, and TFunc checks nothing. -/
def compileChecker : Nat → Suite → Bool → TType → Option (Except String Unit)
  | 0, _, _, _ => none
  | f + 1, s, strict, t =>
    match t with
    | .tName n =>
      match s n with
      | none => some (.error ("Unknown type " ++ n))
      | some t' => compileChecker f s strict t'
    | .tLit _ => some (.ok ())
    | .tArray t' => compileChecker f s strict t'
    | .tTuple ts => exceptList (compileChecker f s strict) ts
    | .tUnion ts => exceptList (compileChecker f s strict) ts
    | .tIntersection ts => exceptList (compileChecker f s strict) ts
    | .tEnumType _ => some (.ok ())
    | .tEnumLit n p =>
      match s n with
      | none => some (.error ("Unknown type " ++ n))
      | some (.tEnumType ms) =>
        if (lookupMember ms p).isSome then some (.ok ())
        else some (.error ("Unknown value " ++ n ++ "." ++ p ++ " used in enumlit"))
      | some _ => some (.error ("Type " ++ n ++ " used in enumlit is not an enum type"))
    | .tIface bases props idx =>
      exceptSeq (exceptList (fun b =>
          match s b with
          | none => some (.error ("Unknown type " ++ b))
          | some t' => compileChecker f s strict t') bases)
        (exceptSeq (exceptList (fun pr => compileChecker f s strict pr.ttype) props)
          (match idx with
           | none => some (.ok ())
           | some ti => compileChecker f s strict ti))
    | .tOpt t' => compileChecker f s strict t'
    | .tFunc => some (.ok ())
    | .tBasic _ _ => some (.ok ())

/-- The property-name set a strict interface checker scans against: the shared
allowedProps set when one was provided (intersection members), else the
interface's own propSet. -/
def ifacePropSet (allowed : Option (List String)) (props : List TProp) : List String :=
  match allowed with
  | some l => l
  | none => props.map TProp.name

/-- The strict-mode extraneous-property scan: the first enumerable key not in
the allowed set, if any. -/
def scanExtraneous (propSet : List String) (ks : List String) : Option String :=
  ks.find? (fun k => !propSet.contains k)

/-- One step of the interface base loop (`baseCheckers[i](value, ctx)` with
the base name resolved at compile time), noop side. -/
def baseStepN (s : Suite) (chk : TType → Option Bool) (b : String) : Option Bool :=
  match s b with
  | none => none
  | some bt => chk bt

/-- One step of the interface base loop, detail side: a failing base returns
false directly, with no extra context entry. -/
def baseStepD (s : Suite) (chk : TType → DCtx → Option (Bool × DCtx)) (b : String)
    (d : DCtx) : Option (Bool × DCtx) :=
  match s b with
  | none => none
  | some bt => chk bt d

/-- One step of the interface property loop, noop side: probe the property
checker with undefined against a NoopContext (compile-time isPropRequired),
skip an undefined value unless the property is required, otherwise check the
present value. -/
def propStepN (chk : TType → Value → Option Bool) (v : Value) (pr : TProp) : Option Bool :=
  match chk pr.ttype .vUndefined with
  | none => none
  | some u =>
    if getProp v pr.name == .vUndefined then some (!(!pr.isOpt && !u))
    else chk pr.ttype (getProp v pr.name)

/-- One step of the interface property loop, detail side: a missing required
property fails with "is missing" (score 1); a present value failing its
checker gets the property name as path segment (score 1).  The optionality
probe always runs against a NoopContext. -/
def propStepD (chkN : TType → Value → Option Bool)
    (chkD : TType → Value → DCtx → Option (Bool × DCtx)) (v : Value) (pr : TProp)
    (d : DCtx) : Option (Bool × DCtx) :=
  match chkN pr.ttype .vUndefined with
  | none => none
  | some u =>
    if getProp v pr.name == .vUndefined then
      if !pr.isOpt && !u then
        some (false, d.fail (some (.str pr.name)) (some "is missing") 1)
      else some (true, d)
    else
      match chkD pr.ttype (getProp v pr.name) d with
      | none => none
      | some (true, d') => some (true, d')
      | some (false, d') => some (false, d'.fail (some (.str pr.name)) none 1)

/-- The compiled checker closure run with a NoopContext: the fast path used by
test()/strictTest() and by the first pass of check()/strictCheck().  The
NoopContext's single `_failed` flag is write-only for every closure that
src/lib/types.ts produces (none of them calls completeFork or failed), so only
the returned boolean is modeled.  The `allowed` argument is the allowedProps
set that TIntersection passes to its members and TName passes through; `none`
marks fuel exhaustion on the eager name expansion. -/
def checkNoop : Nat → Suite → Bool → Option (List String) → TType → Value → Option Bool
  | 0, _, _, _, _, _ => none
  | f + 1, s, strict, allowed, t, v =>
    match t with
    | .tName n =>
      match s n with
      | none => none
      | some t' => checkNoop f s strict allowed t' v
    | .tLit lv => some (v == lv)
    | .tArray t' =>
      match v with
      | .vArr items => loopN (fun it => checkNoop f s strict none t' it.2) items.enum
      | _ => some false
    | .tTuple ts =>
      match v with
      | .vArr items =>
        match loopN (fun it => checkNoop f s strict none it.2 (itemAt items it.1)) ts.enum with
        | none => none
        | some false => some false
        | some true => some (!strict || items.length <= ts.length)
      | _ => some false
    | .tUnion ts => anyN (fun t' => checkNoop f s strict none t' v) ts
    | .tIntersection ts =>
      match (if strict then collectAllowed f s ts else some []) with
      | none => none
      | some al => loopN (fun t' => checkNoop f s strict (some al) t' v) ts
    | .tEnumType ms => some ((ms.map (fun m => m.2)).contains v)
    | .tEnumLit n p =>
      match s n with
      | some (.tEnumType ms) =>
        match lookupMember ms p with
        | some val => some (v == val)
        | none => none
      | _ => none
    | .tIface bases props idx =>
      if typeofStr v != "object" || v == .vNull then some false
      else
        match loopN (baseStepN s (fun bt => checkNoop f s strict none bt v)) bases with
        | none => none
        | some false => some false
        | some true =>
          match loopN (propStepN (fun t' v' => checkNoop f s strict none t' v') v) props with
          | none => none
          | some false => some false
          | some true =>
            match (match idx with
                   | none => some true
                   | some ti =>
                     loopN (fun k => checkNoop f s strict none ti (getProp v k)) (enumKeys v)) with
            | none => none
            | some false => some false
            | some true =>
              if strict && idx.isNone then
                some (scanExtraneous (ifacePropSet allowed props) (enumKeys v)).isNone
              else some true
    | .tOpt t' =>
      if v == .vUndefined then some true else checkNoop f s strict none t' v
    | .tFunc => some (typeofStr v == "function")
    | .tBasic validator _ => some (validator v)

/-- The compiled checker closure run with a DetailContext, threading the
context state (the second pass of check()/strictCheck()).  It mirrors
checkNoop's control flow, additionally recording each failure via
DCtx.fail exactly where the source closures call ctx.fail. -/
def checkDetail : Nat → Suite → Bool → Option (List String) → TType → Value → DCtx →
    Option (Bool × DCtx)
  | 0, _, _, _, _, _, _ => none
  | f + 1, s, strict, allowed, t, v, d =>
    match t with
    | .tName n =>
      match s n with
      | none => none
      | some t' =>
        match checkDetail f s strict allowed t' v d with
        | none => none
        | some (true, d') => some (true, d')
        | some (false, d') =>
          if basicOrName t' then some (false, d')
          else some (false, d'.fail none (some ("is not a " ++ n)) 0)
    | .tLit lv =>
      if v == lv then some (true, d)
      else some (false, d.fail none (some ("is not " ++ jsonStr lv)) (-1))
    | .tArray t' =>
      match v with
      | .vArr items =>
        loopD (fun it d => checkDetail f s strict none t' it.2 d)
          (fun it d => d.fail (some (.idx it.1)) none 1) items.enum d
      | _ => some (false, d.fail none (some "is not an array") 0)
    | .tTuple ts =>
      match v with
      | .vArr items =>
        match loopD (fun it d => checkDetail f s strict none it.2 (itemAt items it.1) d)
            (fun it d => d.fail (some (.idx it.1)) none 1) ts.enum d with
        | none => none
        | some (false, d') => some (false, d')
        | some (true, d') =>
          if !strict || items.length <= ts.length then some (true, d')
          else some (false, d'.fail (some (.idx ts.length)) (some "is extraneous") 2)
      | _ => some (false, d.fail none (some "is not an array") 0)
    | .tUnion ts =>
      match unionLoopD (fun t' dm => checkDetail f s strict none t' v dm) ts [] with
      | none => none
      | some (true, _) => some (true, d)
      | some (false, ctxs) =>
        some (false, (d.resolveUnion ctxs).fail none (some (unionFailMsg ts)) 0)
    | .tIntersection ts =>
      match (if strict then collectAllowed f s ts else some []) with
      | none => none
      | some al =>
        match loopD (fun t' d => checkDetail f s strict (some al) t' v d)
            (fun _ d => d) ts d with
        | none => none
        | some (true, d') => some (true, d')
        | some (false, d') => some (false, d'.fail none none 0)
    | .tEnumType ms =>
      if (ms.map (fun m => m.2)).contains v then some (true, d)
      else some (false, d.fail none (some "is not a valid enum value") 0)
    | .tEnumLit n p =>
      match s n with
      | some (.tEnumType ms) =>
        match lookupMember ms p with
        | some val =>
          if v == val then some (true, d)
          else some (false, d.fail none (some ("is not " ++ n ++ "." ++ p)) (-1))
        | none => none
      | _ => none
    | .tIface bases props idx =>
      if typeofStr v != "object" || v == .vNull then
        some (false, d.fail none (some "is not an object") 0)
      else
        match loopD (baseStepD s (fun bt d => checkDetail f s strict none bt v d))
            (fun _ d => d) bases d with
        | none => none
        | some (false, d') => some (false, d')
        | some (true, d1) =>
          match loopD (propStepD (fun t' v' => checkNoop f s strict none t' v')
              (fun t' v' d => checkDetail f s strict none t' v' d) v)
              (fun _ d => d) props d1 with
          | none => none
          | some (false, d') => some (false, d')
          | some (true, d2) =>
            match (match idx with
                   | none => some (true, d2)
                   | some ti =>
                     loopD (fun k d => checkDetail f s strict none ti (getProp v k) d)
                       (fun k d => d.fail (some (.str k)) none 1) (enumKeys v) d2) with
            | none => none
            | some (false, d') => some (false, d')
            | some (true, d3) =>
              if strict && idx.isNone then
                match scanExtraneous (ifacePropSet allowed props) (enumKeys v) with
                | some k => some (false, d3.fail (some (.str k)) (some "is extraneous") 2)
                | none => some (true, d3)
              else some (true, d3)
    | .tOpt t' =>
      if v == .vUndefined then some (true, d) else checkDetail f s strict none t' v d
    | .tFunc =>
      if typeofStr v == "function" then some (true, d)
      else some (false, d.fail none (some "is not a function") 0)
    | .tBasic validator message =>
      if validator v then some (true, d) else some (false, d.fail none (some message) 0)

/-- Checker.test()/strictTest(): run the closure with a fresh NoopContext. -/
def testModel (f : Nat) (s : Suite) (strict : Bool) (t : TType) (v : Value) : Option Bool :=
  checkNoop f s strict none t v

/-- Checker._doCheck (src/dist/index.js): run the closure with a fresh
NoopContext; on failure, re-run it with a fresh DetailContext and throw a
structured error built from it.  `some none` is silent success, `some (some
details)` is the thrown error's detail list. -/
def doCheckModel (f : Nat) (s : Suite) (strict : Bool) (t : TType) (v : Value) :
    Option (Option (List ErrDetail)) :=
  match checkNoop f s strict none t v with
  | none => none
  | some true => some none
  | some false =>
    match checkDetail f s strict none t v DCtx.empty with
    | none => none
    | some (_, d) => some (some (getErrorDetails d "value"))

/-! ### Relation between the detail-context and noop-context runs -/

theorem loopD_fst {α : Type} (pD : α → DCtx → Option (Bool × DCtx)) (pN : α → Option Bool)
    (onFail : α → DCtx → DCtx) (h : ∀ x d, (pD x d).map Prod.fst = pN x) :
    ∀ (l : List α) (d : DCtx), (loopD pD onFail l d).map Prod.fst = loopN pN l := by
  intro l
  induction l with
  | nil => intro d; simp [loopD, loopN]
  | cons x xs ih =>
    intro d
    have hx := h x d
    rcases hpd : pD x d with _ | ⟨b, d'⟩
    · rw [hpd] at hx; simp only [Option.map_none'] at hx
      simp [loopD, loopN, hpd, ← hx]
    · rw [hpd] at hx; simp only [Option.map_some'] at hx
      cases b
      · simp [loopD, loopN, hpd, ← hx]
      · simp [loopD, loopN, hpd, ← hx, ih]

theorem unionLoopD_fst {α : Type} (pD : α → DCtx → Option (Bool × DCtx)) (pN : α → Option Bool)
    (h : ∀ x d, (pD x d).map Prod.fst = pN x) :
    ∀ (l : List α) (acc : List DCtx),
      (unionLoopD pD l acc).map Prod.fst = anyN pN l := by
  intro l
  induction l with
  | nil => intro acc; simp [unionLoopD, anyN]
  | cons x xs ih =>
    intro acc
    have hx := h x DCtx.empty
    rcases hpd : pD x DCtx.empty with _ | ⟨b, d'⟩
    · rw [hpd] at hx; simp only [Option.map_none'] at hx
      simp [unionLoopD, anyN, hpd, ← hx]
    · rw [hpd] at hx; simp only [Option.map_some'] at hx
      cases b
      · simp [unionLoopD, anyN, hpd, ← hx, ih]
      · simp [unionLoopD, anyN, hpd, ← hx]

/-- The scan for an unknown enumerable property: find? misses exactly when
every key is allowed. -/
theorem find_not_contains_none (ps : List String) (ks : List String) :
    (ks.find? (fun k => !ps.contains k) = none) ↔ (ks.all (fun k => ps.contains k) = true) := by
  induction ks with
  | nil => simp
  | cons k ks ih =>
    simp only [List.find?, List.all_cons]
    cases h : ps.contains k <;> simp [h, ih]

theorem baseStep_fst (s : Suite) (chkN : TType → Option Bool)
    (chkD : TType → DCtx → Option (Bool × DCtx))
    (h : ∀ t d, (chkD t d).map Prod.fst = chkN t) :
    ∀ (b : String) (d : DCtx), (baseStepD s chkD b d).map Prod.fst = baseStepN s chkN b := by
  intro b d
  simp only [baseStepD, baseStepN]
  cases hs : s b with
  | none => simp
  | some bt => simpa using h bt d

theorem propStep_fst (chkN : TType → Value → Option Bool)
    (chkD : TType → Value → DCtx → Option (Bool × DCtx))
    (h : ∀ t v d, (chkD t v d).map Prod.fst = chkN t v) (v : Value) :
    ∀ (pr : TProp) (d : DCtx),
      (propStepD chkN chkD v pr d).map Prod.fst = propStepN chkN v pr := by
  intro pr d
  simp only [propStepD, propStepN]
  cases hu : chkN pr.ttype .vUndefined with
  | none => simp
  | some u =>
    cases hpv : (getProp v pr.name == Value.vUndefined) with
    | true => cases hreq : (!pr.isOpt && !u) <;> simp [hpv, hreq]
    | false =>
      have h2 := h pr.ttype (getProp v pr.name) d
      rcases hd : chkD pr.ttype (getProp v pr.name) d with _ | ⟨b, d2⟩
      · rw [hd] at h2; simp only [Option.map_none'] at h2
        simp [hpv, hd, ← h2]
      · rw [hd] at h2; simp only [Option.map_some'] at h2
        cases b <;> simp [hpv, hd, ← h2]

/-- Running a compiled closure with a DetailContext returns the same boolean
as running it with a NoopContext: the detail bookkeeping never changes the
verdict. -/
theorem checkDetail_fst : ∀ (f : Nat) (s : Suite) (strict : Bool) (al : Option (List String))
    (t : TType) (v : Value) (d : DCtx),
    (checkDetail f s strict al t v d).map Prod.fst = checkNoop f s strict al t v := by
  intro f
  induction f with
  | zero => intro s strict al t v d; simp [checkDetail, checkNoop]
  | succ f ih =>
    intro s strict al t v d
    cases t with
    | tName n =>
      simp only [checkDetail, checkNoop]
      cases hs : s n with
      | none => simp
      | some t' =>
        have h := ih s strict al t' v d
        rcases hd : checkDetail f s strict al t' v d with _ | ⟨b, d'⟩
        · rw [hd] at h; simp only [Option.map_none'] at h
          simp [hd, ← h]
        · rw [hd] at h; simp only [Option.map_some'] at h
          cases b
          · cases hbn : basicOrName t' <;> simp [hd, ← h, hbn]
          · simp [hd, ← h]
    | tLit lv =>
      simp only [checkDetail, checkNoop]
      cases h : v == lv <;> simp [h]
    | tArray t' =>
      cases v with
      | vArr items =>
        simp only [checkDetail, checkNoop]
        exact loopD_fst _ _ _ (fun it d => ih s strict none t' it.2 d) items.enum d

      | vNum n => simp [checkDetail, checkNoop]
      | vStr a => simp [checkDetail, checkNoop]
      | vBool b => simp [checkDetail, checkNoop]
      | vNull => simp [checkDetail, checkNoop]
      | vUndefined => simp [checkDetail, checkNoop]
      | vObj fields => simp [checkDetail, checkNoop]
      | vFunc => simp [checkDetail, checkNoop]
    | tTuple ts =>
      cases v with
      | vArr items =>
        simp only [checkDetail, checkNoop]
        have hl := loopD_fst (fun it d => checkDetail f s strict none it.2 (itemAt items it.1) d)
          (fun it => checkNoop f s strict none it.2 (itemAt items it.1))
          (fun it d => d.fail (some (.idx it.1)) none 1)
          (fun it d => ih s strict none it.2 (itemAt items it.1) d) ts.enum d
        rcases hd : loopD (fun it d => checkDetail f s strict none it.2 (itemAt items it.1) d)
            (fun it d => d.fail (some (.idx it.1)) none 1) ts.enum d with _ | ⟨b, d'⟩
        · rw [hd] at hl; simp only [Option.map_none'] at hl
          simp [hd, ← hl]
        · rw [hd] at hl; simp only [Option.map_some'] at hl
          cases b
          · simp [hd, ← hl]
          · cases hrest : (!strict || items.length ≤ ts.length) <;>
              simp [hd, ← hl, hrest]
      | vNum n => simp [checkDetail, checkNoop]
      | vStr a => simp [checkDetail, checkNoop]
      | vBool b => simp [checkDetail, checkNoop]
      | vNull => simp [checkDetail, checkNoop]
      | vUndefined => simp [checkDetail, checkNoop]
      | vObj fields => simp [checkDetail, checkNoop]
      | vFunc => simp [checkDetail, checkNoop]
    | tUnion ts =>
      simp only [checkDetail, checkNoop]
      have hl := unionLoopD_fst (fun t' dm => checkDetail f s strict none t' v dm)
        (fun t' => checkNoop f s strict none t' v)
        (fun t' dm => ih s strict none t' v dm) ts []
      rcases hd : unionLoopD (fun t' dm => checkDetail f s strict none t' v dm) ts []
          with _ | ⟨b, ctxs⟩
      · rw [hd] at hl; simp only [Option.map_none'] at hl
        simp [hd, ← hl]
      · rw [hd] at hl; simp only [Option.map_some'] at hl
        cases b <;> simp [hd, ← hl]
    | tIntersection ts =>
      simp only [checkDetail, checkNoop]
      cases hal : (if strict then collectAllowed f s ts else some []) with
      | none => simp
      | some al' =>
        have hl := loopD_fst (fun t' d => checkDetail f s strict (some al') t' v d)
          (fun t' => checkNoop f s strict (some al') t' v) (fun _ d => d)
          (fun t' d => ih s strict (some al') t' v d) ts d
        rcases hd : loopD (fun t' d => checkDetail f s strict (some al') t' v d)
            (fun _ d => d) ts d with _ | ⟨b, d'⟩
        · rw [hd] at hl; simp only [Option.map_none'] at hl
          simp [hd, ← hl]
        · rw [hd] at hl; simp only [Option.map_some'] at hl
          cases b <;> simp [hd, ← hl]
    | tEnumType ms =>
      simp only [checkDetail, checkNoop]
      cases h : (ms.map (fun m => m.2)).contains v <;> simp [h]
    | tEnumLit n p =>
      simp only [checkDetail, checkNoop]
      cases hs : s n with
      | none => simp
      | some t' =>
        cases t' with
        | tEnumType ms =>
          cases hm : lookupMember ms p with
          | none => simp [hm]
          | some val => cases h : v == val <;> simp [hm, h]
        | tName m => simp
        | tLit lv => simp
        | tArray t2 => simp
        | tTuple t2 => simp
        | tUnion t2 => simp
        | tIntersection t2 => simp
        | tEnumLit a b => simp
        | tIface a b c => simp
        | tOpt t2 => simp
        | tFunc => simp
        | tBasic a b => simp
    | tIface bases props idx =>
      simp only [checkDetail, checkNoop]
      cases hobj : (typeofStr v != "object" || v == Value.vNull) with
      | true => simp [hobj]
      | false =>
        simp only [hobj, Bool.false_eq_true, if_false]
        have hB := loopD_fst (baseStepD s (fun bt d => checkDetail f s strict none bt v d))
          (baseStepN s (fun bt => checkNoop f s strict none bt v)) (fun _ d => d)
          (baseStep_fst s _ _ (fun t d => ih s strict none t v d)) bases d
        rcases hdB : loopD (baseStepD s (fun bt d => checkDetail f s strict none bt v d))
            (fun _ d => d) bases d with _ | ⟨bB, d1⟩
        · rw [hdB] at hB; simp only [Option.map_none'] at hB
          simp [hdB, ← hB]
        · rw [hdB] at hB; simp only [Option.map_some'] at hB
          cases bB with
          | false => simp [hdB, ← hB]
          | true =>
            simp only [hdB, ← hB]
            have hP := loopD_fst (propStepD (fun t' v' => checkNoop f s strict none t' v')
                (fun t' v' d => checkDetail f s strict none t' v' d) v)
              (propStepN (fun t' v' => checkNoop f s strict none t' v') v) (fun _ d => d)
              (propStep_fst _ _ (fun t v' d => ih s strict none t v' d) v) props d1
            rcases hdP : loopD (propStepD (fun t' v' => checkNoop f s strict none t' v')
                (fun t' v' d => checkDetail f s strict none t' v' d) v)
                (fun _ d => d) props d1 with _ | ⟨bP, d2⟩
            · rw [hdP] at hP; simp only [Option.map_none'] at hP
              simp [hdP, ← hP]
            · rw [hdP] at hP; simp only [Option.map_some'] at hP
              cases bP with
              | false => simp [hdP, ← hP]
              | true =>
                simp only [hdP, ← hP]
                have hI : (match idx with
                    | none => some (true, d2)
                    | some ti =>
                      loopD (fun k d => checkDetail f s strict none ti (getProp v k) d)
                        (fun k d => d.fail (some (.str k)) none 1) (enumKeys v) d2).map Prod.fst
                    = (match idx with
                    | none => some true
                    | some ti =>
                      loopN (fun k => checkNoop f s strict none ti (getProp v k)) (enumKeys v)) := by
                  cases idx with
                  | none => simp
                  | some ti =>
                    exact loopD_fst _ _ _ (fun k d => ih s strict none ti (getProp v k) d)
                      (enumKeys v) d2
                rcases hdI : (match idx with
                    | none => some (true, d2)
                    | some ti =>
                      loopD (fun k d => checkDetail f s strict none ti (getProp v k) d)
                        (fun k d => d.fail (some (.str k)) none 1) (enumKeys v) d2)
                    with _ | ⟨bI, d3⟩
                · rw [hdI] at hI; simp only [Option.map_none'] at hI
                  simp [hdI, ← hI]
                · rw [hdI] at hI; simp only [Option.map_some'] at hI
                  cases bI with
                  | false => simp [hdI, ← hI]
                  | true =>
                    simp only [hdI, ← hI]
                    cases hstrict : (strict && idx.isNone) with
                    | false => simp [hstrict]
                    | true =>
                      simp only [hstrict, if_true]
                      cases hf : scanExtraneous (ifacePropSet al props) (enumKeys v) <;>
                        simp [hf]
    | tOpt t' =>
      simp only [checkDetail, checkNoop]
      cases h : v == Value.vUndefined with
      | true => simp [h]
      | false => simpa [h] using ih s strict none t' v d
    | tFunc =>
      simp only [checkDetail, checkNoop]
      cases h : typeofStr v == "function" <;> simp [h]
    | tBasic validator message =>
      simp only [checkDetail, checkNoop]
      cases h : validator v <;> simp [h]

/-! ### Strict mode only restricts -/

theorem loopN_eq_true_forall {α : Type} (p : α → Option Bool) :
    ∀ l, loopN p l = some true → ∀ x ∈ l, p x = some true := by
  intro l
  induction l with
  | nil => intro _ x hx; cases hx
  | cons y ys ih =>
    intro h x hx
    rcases hp : p y with _ | b
    · rw [loopN, hp] at h; cases h
    · cases b
      · rw [loopN, hp] at h; cases h
      · rcases List.mem_cons.mp hx with hx | hx
        · subst hx; exact hp
        · rw [loopN, hp] at h
          exact ih h x hx

theorem loopN_all_true {α : Type} (p : α → Option Bool) :
    ∀ l, (∀ x ∈ l, ∀ b, p x = some b → b = true) →
      ∀ b, loopN p l = some b → b = true := by
  intro l
  induction l with
  | nil => intro _ b h; rw [loopN] at h; cases h; rfl
  | cons y ys ih =>
    intro hall b h
    rcases hp : p y with _ | by'
    · rw [loopN, hp] at h; cases h
    · have hy := hall y (List.mem_cons_self y ys) by' hp
      subst hy
      rw [loopN, hp] at h
      exact ih (fun x hx => hall x (List.mem_cons_of_mem y hx)) b h

theorem anyN_eq_false_forall {α : Type} (p : α → Option Bool) :
    ∀ l, anyN p l = some false → ∀ x ∈ l, p x = some false := by
  intro l
  induction l with
  | nil => intro _ x hx; cases hx
  | cons y ys ih =>
    intro h x hx
    rcases hp : p y with _ | b
    · rw [anyN, hp] at h; cases h
    · cases b
      · rcases List.mem_cons.mp hx with hx | hx
        · subst hx; exact hp
        · rw [anyN, hp] at h
          exact ih h x hx
      · rw [anyN, hp] at h; cases h

theorem anyN_eq_true_exists {α : Type} (p : α → Option Bool) :
    ∀ l, anyN p l = some true → ∃ x ∈ l, p x = some true := by
  intro l
  induction l with
  | nil => intro h; rw [anyN] at h; cases h
  | cons y ys ih =>
    intro h
    rcases hp : p y with _ | b
    · rw [anyN, hp] at h; cases h
    · cases b
      · rw [anyN, hp] at h
        obtain ⟨x, hx, hpx⟩ := ih h
        exact ⟨x, List.mem_cons_of_mem y hx, hpx⟩
      · exact ⟨y, List.mem_cons_self y ys, hp⟩

/-- A value accepted by the strict closure is accepted by the plain closure:
strict compilation only adds constraints, at every node kind. -/
theorem strict_implies_plain : ∀ (f : Nat) (s : Suite) (t : TType) (v : Value)
    (al1 al2 : Option (List String)) (b : Bool),
    checkNoop f s true al1 t v = some true →
    checkNoop f s false al2 t v = some b → b = true := by
  intro f
  induction f with
  | zero => intro s t v al1 al2 b hS; rw [checkNoop] at hS; cases hS
  | succ f ih =>
    intro s t v al1 al2 b hS hP
    cases t with
    | tName n =>
      rw [checkNoop] at hS hP
      cases hs : s n with
      | none => rw [hs] at hS; cases hS
      | some t' =>
        rw [hs] at hS hP
        exact ih s t' v al1 al2 b hS hP
    | tLit lv =>
      rw [checkNoop] at hS hP
      rw [Option.some.injEq] at hS hP
      rw [← hP]; exact hS
    | tArray t' =>
      cases v with
      | vArr items =>
        rw [checkNoop] at hS hP
        have hall := loopN_eq_true_forall _ _ hS
        refine loopN_all_true _ _ (fun it hit b' hb' => ?_) b hP
        exact ih s t' it.2 none none b' (hall it hit) hb'
      | vNum n => simp [checkNoop] at hS
      | vStr a => simp [checkNoop] at hS
      | vBool a => simp [checkNoop] at hS
      | vNull => simp [checkNoop] at hS
      | vUndefined => simp [checkNoop] at hS
      | vObj a => simp [checkNoop] at hS
      | vFunc => simp [checkNoop] at hS
    | tTuple ts =>
      cases v with
      | vArr items =>
        rw [checkNoop] at hS hP
        rcases hlS : loopN (fun it => checkNoop f s true none it.2 (itemAt items it.1)) ts.enum
            with _ | bS
        · rw [hlS] at hS; cases hS
        · cases bS
          · rw [hlS] at hS; cases hS
          · rw [hlS] at hS
            have hall := loopN_eq_true_forall _ _ hlS
            rcases hlP : loopN (fun it => checkNoop f s false none it.2 (itemAt items it.1)) ts.enum
                with _ | bP
            · rw [hlP] at hP; cases hP
            · have hbP : bP = true := loopN_all_true _ _
                (fun it hit b' hb' => ih s it.2 (itemAt items it.1) none none b' (hall it hit) hb')
                bP hlP
              subst hbP
              rw [hlP] at hP
              cases hP
              rfl
      | vNum n => simp [checkNoop] at hS
      | vStr a => simp [checkNoop] at hS
      | vBool a => simp [checkNoop] at hS
      | vNull => simp [checkNoop] at hS
      | vUndefined => simp [checkNoop] at hS
      | vObj a => simp [checkNoop] at hS
      | vFunc => simp [checkNoop] at hS
    | tUnion ts =>
      rw [checkNoop] at hS hP
      cases b
      · exfalso
        obtain ⟨x, hx, hpx⟩ := anyN_eq_true_exists _ _ hS
        have hallP := anyN_eq_false_forall _ _ hP
        have := ih s x v none none false hpx (hallP x hx)
        cases this
      · rfl
    | tIntersection ts =>
      rw [checkNoop] at hS hP
      simp only [if_true, if_false, Bool.false_eq_true] at hS hP
      rcases hca : collectAllowed f s ts with _ | alS
      · rw [hca] at hS; cases hS
      · rw [hca] at hS
        have hall := loopN_eq_true_forall _ _ hS
        exact loopN_all_true _ _
          (fun x hx b' hb' => ih s x v (some alS) (some []) b' (hall x hx) hb') b hP
    | tEnumType ms =>
      rw [checkNoop] at hS hP
      rw [Option.some.injEq] at hS hP
      rw [← hP]; exact hS
    | tEnumLit n p =>
      rw [checkNoop] at hS hP
      cases hs : s n with
      | none => rw [hs] at hS; cases hS
      | some t' =>
        rw [hs] at hS hP
        cases t' with
        | tEnumType ms =>
          cases hm : lookupMember ms p with
          | none => simp [hm] at hS
          | some val =>
            simp only [hm, Option.some.injEq] at hS hP
            rw [← hP]; exact hS
        | tName m => simp at hS
        | tLit lv => simp at hS
        | tArray t2 => simp at hS
        | tTuple t2 => simp at hS
        | tUnion t2 => simp at hS
        | tIntersection t2 => simp at hS
        | tEnumLit a c => simp at hS
        | tIface a c e => simp at hS
        | tOpt t2 => simp at hS
        | tFunc => simp at hS
        | tBasic a c => simp at hS
    | tIface bases props idx =>
      cases hobj : (typeofStr v != "object" || v == Value.vNull) with
      | true =>
        simp only [checkNoop, hobj, if_true] at hS
        cases hS
      | false =>
        simp only [checkNoop, hobj, Bool.false_eq_true, if_false] at hS hP
        rcases hBS : loopN (baseStepN s fun bt => checkNoop f s true none bt v) bases with _ | bBS
        · simp only [hBS] at hS; cases hS
        · cases bBS
          · simp only [hBS] at hS; cases hS
          · simp only [hBS] at hS
            have hBall := loopN_eq_true_forall _ _ hBS
            have hBpoint : ∀ x ∈ bases, ∀ b',
                baseStepN s (fun bt => checkNoop f s false none bt v) x = some b' → b' = true := by
              intro x hx b' hb'
              have hxS := hBall x hx
              rw [baseStepN] at hxS hb'
              cases hsx : s x with
              | none => rw [hsx] at hxS; cases hxS
              | some bt =>
                rw [hsx] at hxS hb'
                exact ih s bt v none none b' hxS hb'
            rcases hBP : loopN (baseStepN s fun bt => checkNoop f s false none bt v) bases with _ | bBP
            · simp only [hBP] at hP; cases hP
            · have : bBP = true := loopN_all_true _ _ hBpoint bBP hBP
              subst this
              simp only [hBP] at hP
              rcases hPS : loopN (propStepN (fun t' v' => checkNoop f s true none t' v') v) props
                  with _ | bPS
              · simp only [hPS] at hS; cases hS
              · cases bPS
                · simp only [hPS] at hS; cases hS
                · simp only [hPS] at hS
                  have hPall := loopN_eq_true_forall _ _ hPS
                  have hPpoint : ∀ pr ∈ props, ∀ b',
                      propStepN (fun t' v' => checkNoop f s false none t' v') v pr = some b' →
                      b' = true := by
                    intro pr hpr b' hb'
                    have hprS := hPall pr hpr
                    rw [propStepN] at hprS hb'
                    cases huS : checkNoop f s true none pr.ttype .vUndefined with
                    | none => rw [huS] at hprS; cases hprS
                    | some uS =>
                      rw [huS] at hprS
                      cases huP : checkNoop f s false none pr.ttype .vUndefined with
                      | none => rw [huP] at hb'; cases hb'
                      | some uP =>
                        rw [huP] at hb'
                        cases hundef : (getProp v pr.name == Value.vUndefined) with
                        | true =>
                          rw [hundef] at hprS hb'
                          simp only [if_true] at hprS hb'
                          cases hopt : pr.isOpt with
                          | true =>
                            rw [hopt] at hb'
                            simp at hb'
                            exact hb'
                          | false =>
                            rw [hopt] at hprS hb'
                            cases hS2 : uS with
                            | false => rw [hS2] at hprS; simp at hprS
                            | true =>
                              have huP2 : uP = true :=
                                ih s pr.ttype .vUndefined none none uP (hS2 ▸ huS) huP
                              rw [huP2] at hb'
                              simp at hb'
                              exact hb'
                        | false =>
                          rw [hundef] at hprS hb'
                          simp only [Bool.false_eq_true, if_false] at hprS hb'
                          exact ih s pr.ttype (getProp v pr.name) none none b' hprS hb'
                  rcases hPP : loopN (propStepN (fun t' v' => checkNoop f s false none t' v') v) props
                      with _ | bPP
                  · simp only [hPP] at hP; cases hP
                  · have : bPP = true := loopN_all_true _ _ hPpoint bPP hPP
                    subst this
                    simp only [hPP] at hP
                    cases idx with
                    | none =>
                      cases b with
                      | false => simp at hP
                      | true => rfl
                    | some ti =>
                      rcases hIS : loopN (fun k => checkNoop f s true none ti (getProp v k))
                          (enumKeys v) with _ | bIS
                      · simp only [hIS] at hS; cases hS
                      · cases bIS
                        · simp only [hIS] at hS; cases hS
                        · simp only [hIS] at hS
                          have hIall := loopN_eq_true_forall _ _ hIS
                          rcases hIP : loopN (fun k => checkNoop f s false none ti (getProp v k))
                              (enumKeys v) with _ | bIP
                          · simp only [hIP] at hP; cases hP
                          · have : bIP = true := loopN_all_true _ _
                              (fun k hk b' hb' =>
                                ih s ti (getProp v k) none none b' (hIall k hk) hb') bIP hIP
                            subst this
                            simp only [hIP] at hP
                            cases b with
                            | false => simp at hP
                            | true => rfl
    | tOpt t' =>
      rw [checkNoop] at hS hP
      cases hundef : (v == Value.vUndefined) with
      | true =>
        rw [hundef] at hP
        simp only [if_true] at hP
        cases hP
        rfl
      | false =>
        rw [hundef] at hS hP
        simp only [Bool.false_eq_true, if_false] at hS hP
        exact ih s t' v none none b hS hP
    | tFunc =>
      rw [checkNoop] at hS hP
      rw [Option.some.injEq] at hS hP
      rw [← hP]; exact hS
    | tBasic validator message =>
      rw [checkNoop] at hS hP
      rw [Option.some.injEq] at hS hP
      rw [← hP]; exact hS

/-- In plain (non-strict) mode the allowedProps set is irrelevant: it is only
read by the strict extraneous-property scan. -/
theorem checkNoop_plain_allowed : ∀ (f : Nat) (s : Suite) (t : TType) (v : Value)
    (al1 al2 : Option (List String)),
    checkNoop f s false al1 t v = checkNoop f s false al2 t v := by
  intro f
  induction f with
  | zero => intro s t v al1 al2; rfl
  | succ f ih =>
    intro s t v al1 al2
    cases t with
    | tName n =>
      simp only [checkNoop]
      cases hs : s n with
      | none => rfl
      | some t' => exact ih s t' v al1 al2
    | tLit lv => rfl
    | tArray t' => rfl
    | tTuple ts => rfl
    | tUnion ts => rfl
    | tIntersection ts => rfl
    | tEnumType ms => rfl
    | tEnumLit n p => rfl
    | tIface bases props idx => rfl
    | tOpt t' => rfl
    | tFunc => rfl
    | tBasic validator message => rfl

/-! ### Claim theorems: C5, C3, C1 -/

/-- C5: for every compiled checker closure and value, a run with a
DetailContext returns the same boolean as a run with a NoopContext; hence the
two-pass check (first pass with NoopContext, re-run with DetailContext on
failure) returns silently iff test returns true, and throws iff test returns
false. -/
theorem c5_noop_detail_same_boolean (f : Nat) (s : Suite) (strict : Bool) (t : TType)
    (v : Value) (d : DCtx) :
    ((checkDetail f s strict none t v d).map Prod.fst = checkNoop f s strict none t v)
    ∧ (testModel f s strict t v = some true → doCheckModel f s strict t v = some none)
    ∧ (testModel f s strict t v = some false →
        (doCheckModel f s strict t v).isSome ∧ doCheckModel f s strict t v ≠ some none) := by
  refine ⟨checkDetail_fst f s strict none t v d, ?_, ?_⟩
  · intro h
    rw [testModel] at h
    rw [doCheckModel, h]
  · intro h
    rw [testModel] at h
    have hd := checkDetail_fst f s strict none t v DCtx.empty
    rw [h] at hd
    rcases hdd : checkDetail f s strict none t v DCtx.empty with _ | ⟨b, d'⟩
    · rw [hdd] at hd; cases hd
    · rw [hdd] at hd
      simp only [Option.map_some'] at hd
      rw [Option.some.injEq] at hd
      rw [doCheckModel, h, hdd]
      cases hd
      exact ⟨rfl, by simp⟩

/-- C5 witness: a concrete failing value for the `number` checker: the
two-pass check throws. -/
theorem c5_witness :
    (doCheckModel 3 basicTypes false (.tName "number") (.vStr "x")).isSome
    ∧ doCheckModel 3 basicTypes false (.tName "number") (.vStr "x") ≠ some none :=
  (c5_noop_detail_same_boolean 3 basicTypes false (.tName "number") (.vStr "x")
    DCtx.empty).2.2 (by decide)

/-- C3: if the strict closure accepts a value then the plain closure accepts
it (strict accepts a subset); likewise at the facade, a silently succeeding
strictCheck implies check does not throw. -/
theorem c3_strict_accepts_subset (f : Nat) (s : Suite) (t : TType) (v : Value) :
    (checkNoop f s true none t v = some true → checkNoop f s false none t v ≠ some false)
    ∧ (doCheckModel f s true t v = some none →
        ∀ errs, doCheckModel f s false t v ≠ some (some errs)) := by
  constructor
  · intro hS hP
    cases strict_implies_plain f s t v none none false hS hP
  · intro hS errs hP
    rw [doCheckModel] at hS hP
    rcases hns : checkNoop f s true none t v with _ | bS
    · rw [hns] at hS; cases hS
    · cases bS
      · rw [hns] at hS
        rcases hdd : checkDetail f s true none t v DCtx.empty with _ | r
        · rw [hdd] at hS; cases hS
        · rw [hdd] at hS; cases hS
      · rcases hnp : checkNoop f s false none t v with _ | bP
        · rw [hnp] at hP; cases hP
        · cases bP
          · cases strict_implies_plain f s t v none none false hns hnp
          · rw [hnp] at hP; cases hP

/-- C3 witness: a concrete 1-property interface and matching object; the
strict checker accepts, so the plain checker cannot reject. -/
theorem c3_witness :
    checkNoop 3 basicTypes false none
      (.tIface [] [.mk "a" (.tName "number") false] none) (.vObj [("a", .vNum 1)])
      ≠ some false :=
  (c3_strict_accepts_subset 3 basicTypes
    (.tIface [] [.mk "a" (.tName "number") false] none) (.vObj [("a", .vNum 1)])).1
    (by decide)

/-- C1: the checker compiled for union(A, B) accepts a value iff the checker
for A accepts it or the checker for B accepts it. -/
theorem c1_union_accepts_or (f : Nat) (s : Suite) (strict : Bool) (A B : TType) (v : Value)
    (a bb : Bool) (hA : checkNoop f s strict none A v = some a)
    (hB : checkNoop f s strict none B v = some bb) :
    checkNoop (f + 1) s strict none (.tUnion [A, B]) v = some (a || bb) := by
  cases a
  · cases bb <;> simp [checkNoop, anyN, hA, hB]
  · simp [checkNoop, anyN, hA]

/-- C1 witness: `3` is not a string but is a number, so union(string, number)
accepts it. -/
theorem c1_witness :
    checkNoop 4 basicTypes false none (.tUnion [.tName "string", .tName "number"])
      (.vNum 3) = some true :=
  c1_union_accepts_or 3 basicTypes false (.tName "string") (.tName "number") (.vNum 3)
    false true (by decide) (by decide)

/-! ### Claim C2: intersections -/

/-- Demonstration interfaces for the cross-member allow-listing of strict
intersections. -/
def demoIfaceA : TType := .tIface [] [.mk "a" (.tName "number") false] none

def demoIfaceB : TType := .tIface [] [.mk "b" (.tName "number") false] none

def demoAB : Value := .vObj [("a", .vNum 1), ("b", .vNum 2)]

/-- C2 amended: intersection(A,B).check accepts a value iff both A.check and
B.check accept it (plain mode).  In strict mode the intersection's direct
members are compiled against the one shared allowedProps set collected from
all members at compile time — for two flat interface members that set is
exactly the union of both members' declared property names, so a direct flat
interface member's own extraneous-property scan never rejects a value solely
for a property declared by the other member: strict intersection of
{a: number} and {b: number} accepts {a: 1, b: 2}, which strict {a: number}
alone rejects.  (Base interfaces and nested intersections are compiled
without the shared set and scan against their own property sets, so the
original universal no-cross-member-rejection law fails; see the
counterexample.) -/
theorem c2_intersection_and (f : Nat) (s : Suite) (A B : TType) (v : Value) :
    (∀ a bb, checkNoop f s false none A v = some a →
      checkNoop f s false none B v = some bb →
      checkNoop (f + 1) s false none (.tIntersection [A, B]) v = some (a && bb))
    ∧ (∀ u a bb, collectAllowed f s [A, B] = some u →
      checkNoop f s true (some u) A v = some a →
      checkNoop f s true (some u) B v = some bb →
      checkNoop (f + 1) s true none (.tIntersection [A, B]) v = some (a && bb))
    ∧ (checkNoop 4 basicTypes true none (.tIntersection [demoIfaceA, demoIfaceB]) demoAB
        = some true
      ∧ checkNoop 4 basicTypes true none demoIfaceA demoAB = some false)
    ∧ (∀ psA psB : List TProp,
        collectAllowed (f + 1) s [.tIface [] psA none, .tIface [] psB none]
          = some (psA.map TProp.name ++ psB.map TProp.name)) := by
  refine ⟨?_, ?_, ⟨by decide, by decide⟩, fun psA psB => by simp [collectAllowed, allowedOf]⟩
  · intro a bb hA hB
    have hA' : checkNoop f s false (some []) A v = some a := by
      rw [checkNoop_plain_allowed f s A v (some []) none]; exact hA
    have hB' : checkNoop f s false (some []) B v = some bb := by
      rw [checkNoop_plain_allowed f s B v (some []) none]; exact hB
    cases a
    · simp [checkNoop, loopN, hA']
    · cases bb <;> simp [checkNoop, loopN, hA', hB']
  · intro u a bb hu hA hB
    simp only [checkNoop, if_true, hu]
    cases a
    · simp [loopN, hA]
    · cases bb <;> simp [loopN, hA, hB]

/-- C2 witness: the plain AND-law at number ∧ null on value null, and the
strict mechanism at {a: number} ∧ {b: number} on {a: 1, b: 2} with the shared
allow set ["a", "b"]. -/
theorem c2_witness :
    checkNoop 4 basicTypes false none (.tIntersection [.tName "object", .tName "null"])
      .vNull = some false
    ∧ checkNoop 4 basicTypes true none (.tIntersection [demoIfaceA, demoIfaceB]) demoAB
      = some true :=
  ⟨(c2_intersection_and 3 basicTypes (.tName "object") (.tName "null") .vNull).1
      false true (by decide) (by decide),
   (c2_intersection_and 3 basicTypes demoIfaceA demoIfaceB demoAB).2.1
      ["a", "b"] true true (by decide) (by decide) (by decide)⟩

/-- Suite and members for the C2 counterexample: one member extends an empty
base interface, the other declares an optional numeric property b. -/
def emptyBaseSuite : Suite := fun n =>
  if n == "EmptyBase" then some (.tIface [] [] none) else basicTypes n

def cexWithBase : TType := .tIface ["EmptyBase"] [] none

def cexDeclB : TType := .tIface [] [.mk "b" (.tName "number") true] none

/-- C2 counterexample: the original claim's universal cross-member
allow-listing is false on this code.  (1) The strict intersection of
iface(["EmptyBase"], {}) and {b?: number} accepts {} but rejects {b: 1} —
solely for the property b, which member B declares (B alone strict-accepts
{b: 1}, and the plain intersection accepts it); the detail run shows the
rejection is the base's own "is extraneous" for b, because base checkers are
compiled without the shared allowedProps set.  (2) Likewise, the strict
intersection of intersection({a: number}) and {b: number} rejects
{a: 1, b: 2} (plain accepts it, and the flat two-member intersection
strict-accepts it): a nested intersection neither receives the outer shared
set nor contributes its members' names to it. -/
theorem c2_counterexample :
    (checkNoop 5 emptyBaseSuite true none (.tIntersection [cexWithBase, cexDeclB])
        (.vObj []) = some true
      ∧ checkNoop 5 emptyBaseSuite true none (.tIntersection [cexWithBase, cexDeclB])
        (.vObj [("b", .vNum 1)]) = some false
      ∧ checkNoop 5 emptyBaseSuite true none cexDeclB (.vObj [("b", .vNum 1)]) = some true
      ∧ checkNoop 5 emptyBaseSuite false none (.tIntersection [cexWithBase, cexDeclB])
        (.vObj [("b", .vNum 1)]) = some true
      ∧ (checkDetail 5 emptyBaseSuite true none (.tIntersection [cexWithBase, cexDeclB])
          (.vObj [("b", .vNum 1)]) DCtx.empty).map
          (fun r => (r.2.propNames, r.2.messages))
        = some ([some (.str "b"), none], [some "is extraneous", none]))
    ∧ (checkNoop 5 basicTypes true none
        (.tIntersection [.tIntersection [demoIfaceA], demoIfaceB]) demoAB = some false
      ∧ checkNoop 5 basicTypes false none
        (.tIntersection [.tIntersection [demoIfaceA], demoIfaceB]) demoAB = some true
      ∧ checkNoop 5 basicTypes true none (.tIntersection [demoIfaceA, demoIfaceB]) demoAB
        = some true) :=
  ⟨⟨by decide, by decide, by decide, by decide, by decide⟩,
   by decide, by decide, by decide⟩

/-! ### Claim C4: computed optionality of interface properties -/

@[simp] theorem vObj_beq_vNull (l : List (String × Value)) :
    (Value.vObj l == Value.vNull) = false := rfl

@[simp] theorem vUndefined_beq_vUndefined :
    (Value.vUndefined == Value.vUndefined) = true := rfl

@[simp] theorem vObj_beq_vUndefined (l : List (String × Value)) :
    (Value.vObj l == Value.vUndefined) = false := rfl

/-- C4: a property is treated as required exactly when it is not marked
optional and its own type's checker rejects undefined (the compile-time
NoopContext probe `u`).  Consequently, for a one-property interface over an
arbitrary property type: omitting a marked-optional property passes plain and
strict checks, as does setting it explicitly to undefined; an unmarked
property whose type accepts undefined may still be omitted; and omitting a
required property fails, recording "is missing" (score 1) at the property's
path in the detail context. -/
theorem c4_computed_optionality (f : Nat) (s : Suite) (strict : Bool) (tp : TType) (u : Bool)
    (hprobe : checkNoop f s strict none tp .vUndefined = some u) :
    (checkNoop (f + 1) s strict none (.tIface [] [.mk "p" tp true] none) (.vObj [])
      = some true)
    ∧ (checkNoop (f + 1) s strict none (.tIface [] [.mk "p" tp true] none)
        (.vObj [("p", .vUndefined)]) = some true)
    ∧ (u = true →
        checkNoop (f + 1) s strict none (.tIface [] [.mk "p" tp false] none) (.vObj [])
          = some true)
    ∧ (u = false →
        checkNoop (f + 1) s strict none (.tIface [] [.mk "p" tp false] none) (.vObj [])
          = some false
        ∧ checkDetail (f + 1) s strict none (.tIface [] [.mk "p" tp false] none) (.vObj [])
            DCtx.empty
          = some (false, DCtx.mk [some (.str "p")] [some "is missing"] 1 [] none)) := by
  refine ⟨?_, ?_, ?_, ?_⟩
  · cases strict <;>
      simp [checkNoop, loopN, propStepN, baseStepN, hprobe, getProp, enumKeys,
        scanExtraneous, ifacePropSet, TProp.isOpt, TProp.name, TProp.ttype, typeofStr]
  · cases strict <;>
      simp [checkNoop, loopN, propStepN, baseStepN, hprobe, getProp, enumKeys,
        scanExtraneous, ifacePropSet, TProp.isOpt, TProp.name, TProp.ttype, typeofStr]
  · intro hu
    subst hu
    cases strict <;>
      simp [checkNoop, loopN, propStepN, baseStepN, hprobe, getProp, enumKeys,
        scanExtraneous, ifacePropSet, TProp.isOpt, TProp.name, TProp.ttype, typeofStr]
  · intro hu
    subst hu
    constructor
    · cases strict <;>
        simp [checkNoop, loopN, propStepN, baseStepN, hprobe, getProp, enumKeys,
          scanExtraneous, ifacePropSet, TProp.isOpt, TProp.name, TProp.ttype, typeofStr]
    · cases strict <;>
        simp [checkDetail, loopD, propStepD, baseStepD, DCtx.fail, DCtx.empty,
          DCtx.propNames, DCtx.messages, DCtx.score, DCtx.failedForks, DCtx.currentFork,
          hprobe, getProp, enumKeys, scanExtraneous, ifacePropSet,
          TProp.isOpt, TProp.name, TProp.ttype, typeofStr]

/-- C4 witness: property type `number` (which rejects undefined, probe u =
false): omitting the optional property passes; omitting the required one
fails with "is missing". -/
theorem c4_witness :
    checkNoop 3 basicTypes false none
      (.tIface [] [.mk "p" (.tName "number") true] none) (.vObj []) = some true
    ∧ checkDetail 3 basicTypes false none
        (.tIface [] [.mk "p" (.tName "number") false] none) (.vObj []) DCtx.empty
      = some (false, DCtx.mk [some (.str "p")] [some "is missing"] 1 [] none) :=
  ⟨(c4_computed_optionality 2 basicTypes false (.tName "number") false (by decide)).1,
   ((c4_computed_optionality 2 basicTypes false (.tName "number") false
      (by decide)).2.2.2 rfl).2⟩

/-! ### Claim C8: index signatures -/

@[simp] theorem objGuard_vObj (l : List (String × Value)) :
    (typeofStr (Value.vObj l) != "object" || Value.vObj l == Value.vNull) = false := rfl

theorem loopN_congr {α : Type} (p q : α → Option Bool) :
    ∀ l, (∀ x ∈ l, p x = q x) → loopN p l = loopN q l := by
  intro l
  induction l with
  | nil => intro _; rfl
  | cons x xs ih =>
    intro h
    rw [loopN, loopN, h x (List.mem_cons_self x xs),
      ih (fun y hy => h y (List.mem_cons_of_mem x hy))]

theorem loopN_append {α : Type} (p : α → Option Bool) :
    ∀ l1 l2, loopN p (l1 ++ l2)
      = match loopN p l1 with
        | some true => loopN p l2
        | x => x := by
  intro l1 l2
  induction l1 with
  | nil => simp [loopN]
  | cons x xs ih =>
    simp only [List.cons_append, loopN]
    cases hp : p x with
    | none => rfl
    | some b => cases b <;> simp [ih]

theorem getProp_obj_append_ne (fields : List (String × Value)) (k q : String) (w : Value)
    (h : q ≠ k) :
    getProp (.vObj (fields ++ [(k, w)])) q = getProp (.vObj fields) q := by
  induction fields with
  | nil =>
    have hkq : (((k, w)).1 == q) = false := beq_eq_false_iff_ne.mpr (fun he => h he.symm)
    simp [getProp, List.find?_cons_of_neg, hkq]
  | cons f0 fs ih =>
    cases hf : (f0.1 == q) with
    | true =>
      simp only [getProp, List.cons_append, List.find?, hf]
    | false =>
      simp only [getProp, List.cons_append, List.find?, hf] at ih ⊢
      exact ih

theorem getProp_obj_append_self (fields : List (String × Value)) (k : String) (w : Value)
    (hk : k ∉ fields.map Prod.fst) :
    getProp (.vObj (fields ++ [(k, w)])) k = w := by
  induction fields with
  | nil => simp [getProp]
  | cons f0 fs ih =>
    have hf : (f0.1 == k) = false := by
      refine beq_eq_false_iff_ne.mpr (fun he => hk ?_)
      rw [List.map_cons]
      exact he ▸ List.mem_cons_self _ _
    have hk' : k ∉ fs.map Prod.fst := by
      intro hm
      exact hk (by rw [List.map_cons]; exact List.mem_cons_of_mem _ hm)
    simp only [getProp, List.cons_append, List.find?, hf] at ih ⊢
    exact ih hk'

/-- C8 amended: for an interface with an index signature and no base
interfaces, the compiled strict checker's extraneous-property scan is skipped
entirely: extending the checked object with any fresh property whose value
satisfies the index type leaves the verdict unchanged (no "is extraneous"
rejection is possible), and acceptance forces every enumerable property's
value to satisfy the index type, in both plain and strict modes.  (Base
checkers are compiled with the strict flag and without the index signature's
exemption, so a base's own scan can still report "is extraneous"; see the
counterexample.) -/
theorem c8_index_disables_scan (f : Nat) (s : Suite) (strict : Bool) (props : List TProp)
    (ti : TType) (fields : List (String × Value)) (k : String) (w : Value) (r : Bool)
    (hk1 : k ∉ fields.map Prod.fst)
    (hk2 : k ∉ props.map TProp.name)
    (hw : checkNoop f s strict none ti w = some true)
    (hrun : checkNoop (f + 1) s strict none (.tIface [] props (some ti)) (.vObj fields)
      = some r) :
    checkNoop (f + 1) s strict none (.tIface [] props (some ti))
        (.vObj (fields ++ [(k, w)])) = some r
    ∧ (r = true → ∀ q ∈ enumKeys (Value.vObj fields),
        checkNoop f s strict none ti (getProp (.vObj fields) q) = some true) := by
  have hPcongr : loopN (propStepN (fun t' v' => checkNoop f s strict none t' v')
      (.vObj (fields ++ [(k, w)]))) props
      = loopN (propStepN (fun t' v' => checkNoop f s strict none t' v') (.vObj fields))
        props := by
    refine loopN_congr _ _ props (fun pr hpr => ?_)
    have hne : pr.name ≠ k := fun he => hk2 (he ▸ List.mem_map_of_mem TProp.name hpr)
    rw [propStepN, propStepN, getProp_obj_append_ne _ _ _ _ hne]
  have hkeys : enumKeys (Value.vObj (fields ++ [(k, w)]))
      = enumKeys (Value.vObj fields) ++ [k] := by
    simp [enumKeys]
  have hIcongr : loopN (fun q => checkNoop f s strict none ti
        (getProp (.vObj (fields ++ [(k, w)])) q)) (enumKeys (Value.vObj fields))
      = loopN (fun q => checkNoop f s strict none ti (getProp (.vObj fields) q))
        (enumKeys (Value.vObj fields)) := by
    refine loopN_congr _ _ _ (fun q hq => ?_)
    have hne : q ≠ k := by
      intro he
      subst he
      exact hk1 (by simpa [enumKeys] using hq)
    rw [getProp_obj_append_ne _ _ _ _ hne]
  have hlast : getProp (.vObj (fields ++ [(k, w)])) k = w :=
    getProp_obj_append_self _ _ _ hk1
  simp only [checkNoop, objGuard_vObj, Bool.false_eq_true, if_false, loopN] at hrun ⊢
  rw [hPcongr]
  rcases hP : loopN (propStepN (fun t' v' => checkNoop f s strict none t' v')
      (.vObj fields)) props with _ | bP
  · rw [hP] at hrun; cases hrun
  · rw [hP] at hrun
    cases bP with
    | false =>
      simp only at hrun ⊢
      have hr' : r = false := by
        have h2 := hrun.symm
        rw [Option.some.injEq] at h2
        exact h2
      subst hr'
      exact ⟨hrun, fun hr => by cases hr⟩
    | true =>
      simp only at hrun ⊢
      rw [hkeys, loopN_append, hIcongr]
      rcases hI : loopN (fun q => checkNoop f s strict none ti (getProp (.vObj fields) q))
          (enumKeys (Value.vObj fields)) with _ | bI
      · rw [hI] at hrun; cases hrun
      · rw [hI] at hrun
        cases bI with
        | false =>
          simp only at hrun ⊢
          have hr' : r = false := by
            have h2 := hrun.symm
            rw [Option.some.injEq] at h2
            exact h2
          subst hr'
          exact ⟨hrun, fun hr => by cases hr⟩
        | true =>
          simp only [loopN, hlast, hw, Option.isNone_some, Bool.and_false,
            Bool.false_eq_true, if_false] at hrun ⊢
          refine ⟨hrun, fun hr q hq => ?_⟩
          exact loopN_eq_true_forall _ _ hI q hq

/-- C8 witness: interface `{[key]: number}` with no declared props accepts
{x: 1} strictly, and stays accepted after adding a fresh property y: 2. -/
theorem c8_witness :
    checkNoop 3 basicTypes true none (.tIface [] [] (some (.tName "number")))
        (.vObj [("x", .vNum 1), ("y", .vNum 2)]) = some true
    ∧ checkNoop 2 basicTypes true none (.tName "number")
        (getProp (.vObj [("x", .vNum 1)]) "x") = some true := by
  have h := c8_index_disables_scan 2 basicTypes true [] (.tName "number")
    [("x", .vNum 1)] "y" (.vNum 2) true (by decide) (by decide) (by decide) (by decide)
  refine ⟨h.1, ?_⟩
  exact h.2 rfl "x" (by decide)

/-- Suite for the C8 counterexample: a base interface with one required
numeric property and no index signature. -/
def baseXSuite : Suite := fun n =>
  if n == "Base" then some (.tIface [] [.mk "x" (.tName "number") false] none)
  else basicTypes n

/-- A derived interface with an index signature of type `any`, extending
Base. -/
def idxIfaceWithBase : TType := .tIface ["Base"] [] (some (.tName "any"))

/-- C8 counterexample: the original claim's "never reports is extraneous" is
false on this code when the interface has bases.  iface(["Base"], {},
[index]: any) with Base = {x: number} strict-accepts {x: 1} but rejects
{x: 1, y: 2}, recording ("y", "is extraneous") — even though y's value
satisfies the index type `any` — because the base checker is compiled with
the strict flag, without the index signature's exemption, and scans against
its own propSet. -/
theorem c8_counterexample :
    checkNoop 5 baseXSuite true none idxIfaceWithBase (.vObj [("x", .vNum 1)]) = some true
    ∧ checkNoop 5 baseXSuite true none idxIfaceWithBase
        (.vObj [("x", .vNum 1), ("y", .vNum 2)]) = some false
    ∧ checkNoop 4 baseXSuite true none (.tName "any") (.vNum 2) = some true
    ∧ (checkDetail 5 baseXSuite true none idxIfaceWithBase
        (.vObj [("x", .vNum 1), ("y", .vNum 2)]) DCtx.empty).map
        (fun r => (r.2.propNames, r.2.messages))
      = some ([some (.str "y")], [some "is extraneous"]) :=
  ⟨by decide, by decide, by decide, by decide⟩

/-! ### Claim C9: fail-fast compile-time errors -/

def isEnumTypeB : TType → Bool
  | .tEnumType _ => true
  | _ => false

/-- C9: an unresolvable type name, an enum-literal whose enum name is
unresolvable, whose target is not an enum, or whose member is unknown, all
throw at checker-compilation time with the exact source messages; the throw
is eager (a union compiles its members before any value is seen, so a bad
second member fails the whole compilation even though validation of a value
accepted by the first member would never reach it); and a validation-time
shape failure never throws from inside a closure — the failure is recorded in
the detail context and surfaced by the facade as a structured error. -/
theorem c9_compile_time_errors (f : Nat) (s : Suite) (strict : Bool) (n p : String) :
    (s n = none → compileChecker (f + 1) s strict (.tName n)
      = some (.error ("Unknown type " ++ n)))
    ∧ (s n = none → compileChecker (f + 1) s strict (.tEnumLit n p)
      = some (.error ("Unknown type " ++ n)))
    ∧ (∀ t', s n = some t' → isEnumTypeB t' = false →
        compileChecker (f + 1) s strict (.tEnumLit n p)
          = some (.error ("Type " ++ n ++ " used in enumlit is not an enum type")))
    ∧ (∀ ms, s n = some (.tEnumType ms) → lookupMember ms p = none →
        compileChecker (f + 1) s strict (.tEnumLit n p)
          = some (.error ("Unknown value " ++ n ++ "." ++ p ++ " used in enumlit")))
    ∧ (∀ t0, s n = none → compileChecker (f + 1) s strict t0 = some (.ok ()) →
        compileChecker (f + 2) s strict (.tUnion [t0, .tName n])
          = some (.error ("Unknown type " ++ n)))
    ∧ (∀ t0 v, checkNoop (f + 1) s strict none t0 v = some true →
        checkNoop (f + 2) s strict none (.tUnion [t0, .tName n]) v = some true)
    ∧ (∀ t0 v d', checkNoop f s strict none t0 v = some false →
        checkDetail f s strict none t0 v DCtx.empty = some (false, d') →
        doCheckModel f s strict t0 v = some (some (getErrorDetails d' "value"))) := by
  refine ⟨?_, ?_, ?_, ?_, ?_, ?_, ?_⟩
  · intro h; simp [compileChecker, h]
  · intro h; simp [compileChecker, h]
  · intro t' h henum
    cases t' <;> simp_all [compileChecker, isEnumTypeB]
  · intro ms h hm
    simp [compileChecker, h, hm]
  · intro t0 h h0
    have h1 : compileChecker (f + 1) s strict (.tName n)
        = some (.error ("Unknown type " ++ n)) := by simp [compileChecker, h]
    show compileChecker ((f + 1) + 1) s strict (.tUnion [t0, .tName n])
      = some (.error ("Unknown type " ++ n))
    have hu : compileChecker ((f + 1) + 1) s strict (.tUnion [t0, .tName n])
        = exceptList (compileChecker (f + 1) s strict) [t0, .tName n] := rfl
    rw [hu]
    simp only [exceptList, h0, h1]
  · intro t0 v h0
    show checkNoop ((f + 1) + 1) s strict none (.tUnion [t0, .tName n]) v = some true
    have hu : checkNoop ((f + 1) + 1) s strict none (.tUnion [t0, .tName n]) v
        = anyN (fun t' => checkNoop (f + 1) s strict none t' v) [t0, .tName n] := rfl
    rw [hu]
    simp only [anyN, h0]
  · intro t0 v d' h0 hd
    simp [doCheckModel, testModel, h0, hd]

/-- C9 witness: the demo suite resolves no name "Bogus"; compiling name
"Bogus" throws "Unknown type Bogus", compiling union(number, Bogus) also
throws it, yet validating 3 against the union's compiled plain checker (as
compiled before the bad member is reached) succeeds on the first member. -/
theorem c9_witness :
    compileChecker 3 basicTypes false (.tName "Bogus")
      = some (.error ("Unknown type " ++ "Bogus"))
    ∧ compileChecker 4 basicTypes false (.tUnion [.tName "number", .tName "Bogus"])
      = some (.error ("Unknown type " ++ "Bogus"))
    ∧ checkNoop 4 basicTypes false none (.tUnion [.tName "number", .tName "Bogus"])
      (.vNum 3) = some true :=
  ⟨(c9_compile_time_errors 2 basicTypes false "Bogus" "x").1 rfl,
   (c9_compile_time_errors 2 basicTypes false "Bogus" "x").2.2.2.2.1 (.tName "number")
     rfl (by rfl),
   (c9_compile_time_errors 2 basicTypes false "Bogus" "x").2.2.2.2.2.1 (.tName "number")
     (.vNum 3) (by decide)⟩

/-! ### Claim C10: recursive named types (eager compilation diverges) -/

/-- The recursive-interface fixture of the test suite:
`FormConfig = {children?: FormConfig[]}`. -/
def formConfigT : TType :=
  .tIface [] [.mk "children" (.tArray (.tName "FormConfig")) true] none

def recSuite : Suite := fun n =>
  if n == "FormConfig" then some formConfigT else basicTypes n

/-- C10 evidence: compiling the checker of the self-referential interface
never terminates for any fuel bound, because TName.getChecker compiles its
resolved target eagerly and TIface/TArray compile all children eagerly —
the compile-time recursion FormConfig → iface → array → FormConfig never
bottoms out.  The repository's own changelog ("Avoids infinite recursion when
creating checkers for recursive types") and its recursive-interface test
expect this compilation to succeed. -/
theorem c10_recursive_compile_diverges : ∀ (f : Nat) (strict : Bool),
    compileChecker f recSuite strict (.tName "FormConfig") = none
    ∧ compileChecker f recSuite strict formConfigT = none
    ∧ compileChecker f recSuite strict (.tArray (.tName "FormConfig")) = none := by
  intro f
  induction f with
  | zero => intro strict; exact ⟨rfl, rfl, rfl⟩
  | succ f ih =>
    intro strict
    obtain ⟨ih1, ih2, ih3⟩ := ih strict
    refine ⟨?_, ?_, ?_⟩
    · have h : compileChecker (f + 1) recSuite strict (.tName "FormConfig")
          = compileChecker f recSuite strict formConfigT := by
        simp [compileChecker, recSuite]
      rw [h, ih2]
    · have h : compileChecker (f + 1) recSuite strict formConfigT
          = exceptSeq (some (.ok ()))
              (exceptSeq
                (exceptList (fun pr : TProp => compileChecker f recSuite strict pr.ttype)
                  [.mk "children" (.tArray (.tName "FormConfig")) true])
                (some (.ok ()))) := rfl
      rw [h]
      simp [exceptList, exceptSeq, TProp.ttype, ih3]
    · have h : compileChecker (f + 1) recSuite strict (.tArray (.tName "FormConfig"))
          = compileChecker f recSuite strict (.tName "FormConfig") := rfl
      rw [h, ih1]

/-! ### Claim C6: number of reported "is missing" failures -/

/-- An interface with 6 required numeric properties. -/
def sixPropsIface : TType := .tIface []
  [.mk "a" (.tName "number") false, .mk "b" (.tName "number") false,
   .mk "c" (.tName "number") false, .mk "d" (.tName "number") false,
   .mk "e" (.tName "number") false, .mk "f" (.tName "number") false] none

/-- C6 evidence: checking {} against an interface with 6 required numeric
properties records exactly ONE "is missing" failure (for the first property)
and the produced error report is the single detail `value.a is missing`:
TIface.getChecker's property loop returns at the first failure and never
calls fork(), so DetailContext's fork cap of 3 never applies.  The
repository's own test ("should not return too many errors") expects exactly 3
"is missing" errors here. -/
theorem c6_reports_one_missing :
    checkDetail 3 basicTypes false none sixPropsIface (.vObj []) DCtx.empty
      = some (false, DCtx.mk [some (.str "a")] [some "is missing"] 1 [] none)
    ∧ getErrorDetails (DCtx.mk [some (.str "a")] [some "is missing"] 1 [] none) "value"
      = [.mk "value.a" "is missing" []]
    ∧ doCheckModel 3 basicTypes false sixPropsIface (.vObj [])
      = some (some [.mk "value.a" "is missing" []]) := by
  refine ⟨rfl, ?_, ?_⟩ <;> rfl

/-! ### Claim C7: resolveUnion's best-match selection -/

def unionDemoAB : TType := .tUnion [demoIfaceA, demoIfaceB]

def unionDemoLit : TType := .tUnion [.tLit (.vNum 1), .tLit (.vNum 2)]

/-- C7 counterexample: union of {a: number} and {b: number} checked against
{}: both members fail with equal positive score 1, and resolveUnion splices
the records of the LATEST-tried member (property "b"), not the earliest
("a").  Also, for union(lit 1, lit 2) against 3 both members fail with score
-1, and nothing at all is spliced (the splice happens only for a positive
best score): only the union's own "is none of" record appears. -/
theorem c7_counterexample :
    ((checkDetail 4 basicTypes false none unionDemoAB (.vObj []) DCtx.empty).map
        (fun r => (r.2.propNames, r.2.messages))
      = some ([some (.str "b"), none], [some "is missing", some "is none of 2 types"]))
    ∧ ((checkDetail 4 basicTypes false none unionDemoAB (.vObj []) DCtx.empty).map
        (fun r => (r.2.propNames, r.2.messages))
      ≠ some ([some (.str "a"), none], [some "is missing", some "is none of 2 types"]))
    ∧ ((checkDetail 4 basicTypes false none unionDemoLit (.vNum 3) DCtx.empty).map
        (fun r => (r.2.propNames, r.2.messages))
      = some ([none], [some "is none of 1, 2"])) := by
  refine ⟨by decide, by decide, by decide⟩

theorem resolveBestGo_spec : ∀ (cs : List DCtx) (b : DCtx),
    ∃ c l1 l2, resolveBestGo b cs = c
      ∧ b :: cs = l1 ++ c :: l2
      ∧ (∀ x ∈ b :: cs, x.score ≤ c.score)
      ∧ (∀ x ∈ l2, x.score < c.score) := by
  intro cs
  induction cs with
  | nil =>
    intro b
    refine ⟨b, [], [], rfl, rfl, ?_, ?_⟩
    · intro x hx
      rcases List.mem_cons.mp hx with hx | hx
      · subst hx; exact le_refl _
      · cases hx
    · intro x hx; cases hx
  | cons c' cs ih =>
    intro b
    by_cases hge : c'.score ≥ b.score
    · obtain ⟨c, l1, l2, heq, hdec, hmax, haft⟩ := ih c'
      refine ⟨c, b :: l1, l2, ?_, ?_, ?_, haft⟩
      · rw [resolveBestGo, if_pos hge]; exact heq
      · rw [List.cons_append, ← hdec]
      · intro x hx
        rcases List.mem_cons.mp hx with hx | hx
        · subst hx
          exact le_trans hge (hmax c' (List.mem_cons_self _ _))
        · exact hmax x hx
    · have hlt : c'.score < b.score := lt_of_not_le hge
      obtain ⟨c, l1, l2, heq, hdec, hmax, haft⟩ := ih b
      have hbc : b.score ≤ c.score := hmax b (List.mem_cons_self _ _)
      cases l1 with
      | nil =>
        rw [List.nil_append] at hdec
        injection hdec with h1 h2
        refine ⟨c, [], c' :: cs, ?_, ?_, ?_, ?_⟩
        · rw [resolveBestGo, if_neg hge]; exact heq
        · rw [List.nil_append, ← h1]
        · intro x hx
          rcases List.mem_cons.mp hx with hx | hx
          · subst hx; exact hbc
          · rcases List.mem_cons.mp hx with hx | hx
            · subst hx; exact le_of_lt (lt_of_lt_of_le hlt hbc)
            · exact hmax x (List.mem_cons_of_mem _ hx)
        · intro x hx
          rcases List.mem_cons.mp hx with hx | hx
          · subst hx; exact lt_of_lt_of_le hlt hbc
          · exact haft x (h2 ▸ hx)
      | cons hd l1' =>
        rw [List.cons_append] at hdec
        injection hdec with h1 h2
        refine ⟨c, b :: c' :: l1', l2, ?_, ?_, ?_, haft⟩
        · rw [resolveBestGo, if_neg hge]; exact heq
        · rw [List.cons_append, List.cons_append, ← h2]
        · intro x hx
          rcases List.mem_cons.mp hx with hx | hx
          · subst hx; exact hbc
          · rcases List.mem_cons.mp hx with hx | hx
            · subst hx; exact le_of_lt (lt_of_lt_of_le hlt hbc)
            · exact hmax x (List.mem_cons_of_mem _ hx)

/-- C7 amended: after all union members failed, resolveUnion selects the
member context with the numerically highest severity score, keeping the
LATEST-tried member among ties (every member tried after the selected one
scores strictly lower), and splices that member's path/message/fork records
into the current context exactly when its score is positive (otherwise
nothing is spliced). -/
theorem c7_resolve_union_selects_latest_best (d c0 : DCtx) (cs : List DCtx) :
    ∃ best l1 l2,
      resolveBest (c0 :: cs) = some best
      ∧ c0 :: cs = l1 ++ best :: l2
      ∧ (∀ x ∈ c0 :: cs, x.score ≤ best.score)
      ∧ (∀ x ∈ l2, x.score < best.score)
      ∧ DCtx.resolveUnion d (c0 :: cs)
        = if best.score > 0 then
            DCtx.mk (d.propNames ++ best.propNames) (d.messages ++ best.messages)
              d.score (d.failedForks ++ best.failedForks) d.currentFork
          else d := by
  obtain ⟨c, l1, l2, heq, hdec, hmax, haft⟩ := resolveBestGo_spec cs c0
  have hrb : resolveBest (c0 :: cs) = some c := by rw [resolveBest, heq]
  refine ⟨c, l1, l2, hrb, hdec, hmax, haft, ?_⟩
  rw [DCtx.resolveUnion, hrb]
